import Mathlib

/-!
Shallow embedding of the Traart transcription engine
(`src/engine/transcribe.py`, `src/engine/diarize.py`).

Modelling conventions:
* audio is represented by its sample count; every slice of the audio tensor
  that the code takes is contiguous, so a slice is represented by its
  half-open sample range `[a, b)` within the full buffer;
* the ASR collaborator (`model.transcribe`) is an oracle
  `Asr : ℕ → ℕ → Option String` keyed by the sample range it is given;
  `none` models the collaborator raising an exception;
* Python floats are idealised as `ℚ` (all comparisons in the claims happen
  away from representation boundaries, and at the one relevant threshold
  `sr * 0.3` with `sr = 16000` the float comparison agrees with the exact
  rational one);
* `round(x, n)` is modelled as rounding `x * 10^n` to the nearest integer;
* warnings written by `report_warning` are modelled as a list of `Warn`
  events in emission order.
-/

namespace Traart

/-- The fixed pipeline sample rate (`SAMPLE_RATE = 16000`). -/
def SAMPLE_RATE : ℕ := 16000

/-- Python `round(q, n)` idealised over `ℚ`: round `q * 10^n` to the nearest
integer, divide back. -/
def pyRound (n : ℕ) (q : ℚ) : ℚ := (round (q * (10 ^ n : ℚ)) : ℚ) / (10 ^ n : ℚ)

/-- Warning events collected by `report_warning`. -/
inductive Warn where
  /-- `transcribe_chunk` caught an exception from the ASR collaborator. -/
  | chunkFail : Warn
  /-- an empty diarization turn of duration ≥ 0.5 s was kept as a
  placeholder (`"Пустой сегмент ..."`). -/
  | emptyTurn (speaker : String) : Warn
deriving DecidableEq, Repr

/-- The ASR collaborator: given the half-open sample range of the slice it
receives, it returns `some text`, or `none` when `model.transcribe` raises. -/
def Asr : Type := ℕ → ℕ → Option String

/-- Result of one `transcribe_chunk` call: the returned text, the list of
sample ranges actually submitted to the ASR collaborator (`[]` or one
element), and the warnings emitted. -/
structure ChunkResult where
  text : String
  calls : List (ℕ × ℕ)
  warns : List Warn
deriving DecidableEq, Repr

/-- Python `str.strip()`: remove leading and trailing whitespace characters. -/
def pyStrip (s : String) : String :=
  ⟨((s.data.dropWhile Char.isWhitespace).reverse.dropWhile Char.isWhitespace).reverse⟩

/-- `transcribe_chunk(model, audio_tensor, sr)` on the slice `[a, b)`:
if the slice is shorter than `sr * 0.1` samples, return `""` without
invoking the collaborator; otherwise invoke it once, strip the text,
and on an exception emit a warning and return `""`. -/
def transcribe_chunk (asr : Asr) (a b sr : ℕ) : ChunkResult :=
  if 10 * (b - a) < sr then ⟨"", [], []⟩
  else
    match asr a b with
    | some t => ⟨pyStrip t, [(a, b)], []⟩
    | none => ⟨"", [(a, b)], [.chunkFail]⟩

/-- The chunking loop shared by `transcribe_audio`, the long-turn path and
the tail path: `for start in range(0, total, stepS)` collecting
`(start, min(start + chunkS, total))` and breaking as soon as a range is
shorter than `sr * 0.3` samples.  `fuel` only bounds the recursion; with
`fuel = total + 1` and `stepS ≥ 1` it is never exhausted. -/
def chunkRangesAux (total chunkS stepS sr : ℕ) : ℕ → ℕ → List (ℕ × ℕ)
  | 0, _ => []
  | fuel + 1, start =>
    if start < total then
      let e := min (start + chunkS) total
      if 10 * (e - start) < 3 * sr then []
      else (start, e) :: chunkRangesAux total chunkS stepS sr fuel (start + stepS)
    else []

/-- The list of chunk ranges produced by the Python loop. -/
def chunkRanges (total chunkS stepS sr : ℕ) : List (ℕ × ℕ) :=
  chunkRangesAux total chunkS stepS sr (total + 1) 0

/-- Modelled from the spec (§4.2 ChunkScheduler), for comparison with the
code's `chunkRanges`: `start_0 = 0`, `start_{i+1} = start_i + (D-O)*sr`,
`end_i = min(start_i + D*sr, total)`, stopping as soon as a range would be
shorter than 0.3 seconds. -/
def specRangesAux (total D O sr : ℕ) : ℕ → ℕ → List (ℕ × ℕ)
  | 0, _ => []
  | fuel + 1, start =>
    let e := min (start + D * sr) total
    if 10 * (e - start) < 3 * sr then []
    else (start, e) :: specRangesAux total D O sr fuel (start + (D - O) * sr)

/-- The spec's chunk-range sequence, started at `start_0 = 0`. -/
def specChunkRanges (total D O sr : ℕ) : List (ℕ × ℕ) :=
  specRangesAux total D O sr (total + 1) 0

/-- The sample ranges on which `transcribe_audio` invokes `transcribe_chunk`:
the whole buffer when `total_samples <= chunk_samples`, otherwise the
chunking loop's ranges. -/
def audioChunkPlan (total sr D O : ℕ) : List (ℕ × ℕ) :=
  if total ≤ D * sr then [(0, total)]
  else chunkRanges total (D * sr) ((D - O) * sr) sr

/-- An output segment dict: `{"start": .., "end": .., "speaker": .., "text": ..}`.
Non-diarized segments carry `speaker = ""`. -/
structure Seg where
  start : ℚ
  «end» : ℚ
  speaker : String
  text : String
deriving DecidableEq, Repr

/-- `" ".join(parts)`. -/
def joinParts (ps : List String) : String := String.intercalate " " ps

/-- `transcribe_audio(audio, sr, model, progress_offset, progress_scale,
chunk_duration, chunk_overlap)`: returns the full text, the segment list and
the sequence of progress values it reports (after `round(p, 3)`). -/
def transcribe_audio (asr : Asr) (total sr : ℕ) (po ps : ℚ) (D O : ℕ) :
    String × List Seg × List ℚ :=
  let chunkS := D * sr
  let stepS := (D - O) * sr
  if total ≤ chunkS then
    let r := transcribe_chunk asr 0 total sr
    let segs : List Seg :=
      if r.text ≠ "" then [⟨0, (total : ℚ) / sr, "", r.text⟩] else []
    (r.text, segs, [pyRound 3 (po + ps * (1 / 10)), pyRound 3 (po + ps)])
  else
    let cs := chunkRanges total chunkS stepS sr
    let n := cs.length
    let items := cs.map fun p => (p, transcribe_chunk asr p.1 p.2 sr)
    let texts := (items.map fun it => it.2.text).filter (· ≠ "")
    let segs := items.filterMap fun it =>
      if it.2.text ≠ "" then
        some ⟨pyRound 2 ((it.1.1 : ℚ) / sr), pyRound 2 ((it.1.2 : ℚ) / sr), "", it.2.text⟩
      else none
    let prog := (List.range n).map fun (i : ℕ) => pyRound 3 (po + ps * (((i : ℚ) + 1) / (n : ℚ)))
    (joinParts texts, segs, prog)

/-- A diarization turn (`diarize.Segment`): start and end in seconds and an
opaque speaker label. -/
structure Segment where
  start : ℚ
  «end» : ℚ
  speaker_id : String
deriving DecidableEq, Repr

/-- `_merge_segments(segments, gap_threshold)` from `diarize.py`: merge
consecutive turns of the same speaker when the gap is below the threshold. -/
def diarMergeSegments (gapThreshold : ℚ) (segments : List Segment) : List Segment :=
  match segments with
  | [] => []
  | s0 :: rest =>
    (rest.foldl (fun acc seg =>
      match acc with
      | [] => [seg]
      | prev :: tail =>
        if seg.speaker_id = prev.speaker_id ∧ seg.start - prev.«end» < gapThreshold then
          ⟨prev.start, seg.«end», prev.speaker_id⟩ :: tail
        else seg :: prev :: tail) [s0]).reverse

/-- `_filter_short(segments, min_duration)` from `diarize.py`. -/
def diarFilterShort (minDuration : ℚ) (segments : List Segment) : List Segment :=
  segments.filter fun s => s.«end» - s.start ≥ minDuration

/-- The sample span of a diarization turn:
`(int(seg.start * sr), int(seg.end * sr))` (Python `int` truncation; the
turn times are nonnegative, so truncation is `Int.toNat ∘ floor`). -/
def turnSpan (sr : ℕ) (seg : Segment) : ℕ × ℕ :=
  ((⌊seg.start * sr⌋).toNat, (⌊seg.«end» * sr⌋).toNat)

/-- The `duration` the code computes for a turn:
`(end_sample - start_sample) / sr`. -/
def turnDuration (sr : ℕ) (seg : Segment) : ℚ :=
  (((turnSpan sr seg).2 : ℚ) - ((turnSpan sr seg).1 : ℚ)) / sr

/-- The first transcription attempt for a diarization turn: if the turn's
duration exceeds `chunk_duration - chunk_overlap`, re-chunk the turn's slice
and join the nonempty per-chunk texts with a space; otherwise transcribe the
slice directly. -/
def turnInitial (asr : Asr) (sr D O : ℕ) (seg : Segment) : ChunkResult :=
  let s := (turnSpan sr seg).1
  let e := (turnSpan sr seg).2
  if turnDuration sr seg > ((D : ℚ) - (O : ℚ)) then
    let rs := chunkRanges (e - s) (D * sr) ((D - O) * sr) sr
    let crs := rs.map fun p => transcribe_chunk asr (s + p.1) (s + p.2) sr
    { text := joinParts (((crs.map fun c => c.text).filter (· ≠ ""))),
      calls := (crs.map fun c => c.calls).flatten,
      warns := (crs.map fun c => c.warns).flatten }
  else transcribe_chunk asr s e sr

/-- A turn's transcription including the expansion retry: when the first
attempt is empty and the duration is ≥ 0.5 s, `transcribe_chunk` is called
once more on the padded span `[max(0, s - pad*sr), min(total, e + pad*sr))`. -/
def turnTranscribe (asr : Asr) (total sr D O P : ℕ) (seg : Segment) : ChunkResult :=
  let init := turnInitial asr sr D O seg
  let s := (turnSpan sr seg).1
  let e := (turnSpan sr seg).2
  if init.text = "" ∧ turnDuration sr seg ≥ 1 / 2 then
    let pad := P * sr
    let r := transcribe_chunk asr (s - pad) (min total (e + pad)) sr
    ⟨r.text, init.calls ++ r.calls, init.warns ++ r.warns⟩
  else init

/-- The output contribution of one diarization turn: a transcribed segment
when the text is nonempty; a `"[...]"` placeholder plus a warning when the
text is empty and the duration is ≥ 0.5 s; nothing otherwise. -/
def turnOutput (asr : Asr) (total sr D O P : ℕ) (seg : Segment) :
    List Seg × List Warn :=
  let t := turnTranscribe asr total sr D O P seg
  if t.text ≠ "" then
    ([⟨pyRound 2 seg.start, pyRound 2 seg.«end», seg.speaker_id, t.text⟩], t.warns)
  else if turnDuration sr seg ≥ 1 / 2 then
    ([⟨pyRound 2 seg.start, pyRound 2 seg.«end», seg.speaker_id, "[...]"⟩],
      t.warns ++ [.emptyTurn seg.speaker_id])
  else ([], t.warns)

/-- The tail-fallback segments: chunk the trailing audio
`audio_tensor[int(last_diar_end * sr):]` and keep the nonempty-text chunks
as speaker-less segments. -/
def tailSegments (asr : Asr) (total sr D O : ℕ) (lastEnd : ℚ) : List Seg :=
  let ts := (⌊lastEnd * sr⌋).toNat
  let L := total - ts
  let rs := chunkRanges L (D * sr) ((D - O) * sr) sr
  rs.filterMap fun p =>
    let r := transcribe_chunk asr (ts + p.1) (ts + p.2) sr
    if r.text ≠ "" then
      some ⟨pyRound 2 (lastEnd + (p.1 : ℚ) / sr), pyRound 2 (lastEnd + (p.2 : ℚ) / sr),
        "", r.text⟩
    else none

/-- One step of the final same-speaker merge in `transcribe_with_diarization`
(the accumulator is kept reversed): the incoming segment merges into the
previous one iff the speakers are equal, the speaker label is nonempty and
the gap is below `merge_gap`. -/
def mergeStep (mergeGap : ℚ) (acc : List Seg) (r : Seg) : List Seg :=
  match acc with
  | [] => [r]
  | prev :: rest =>
    if prev.speaker = r.speaker ∧ r.speaker ≠ "" ∧ r.start - prev.«end» < mergeGap then
      ⟨prev.start, r.«end», prev.speaker, prev.text ++ " " ++ r.text⟩ :: rest
    else r :: prev :: rest

/-- The final merge pass over the produced segment sequence. -/
def mergeSegs (mergeGap : ℚ) (rs : List Seg) : List Seg :=
  (rs.foldl (mergeStep mergeGap) []).reverse

/-- The list of segments produced by the per-turn loop, before the
tail fallback and the merge. -/
def turnResults (asr : Asr) (total sr D O P : ℕ) (diar : List Segment) : List Seg :=
  (diar.map fun seg => (turnOutput asr total sr D O P seg).1).flatten

/-- The warnings emitted by the per-turn loop. -/
def turnWarns (asr : Asr) (total sr D O P : ℕ) (diar : List Segment) : List Warn :=
  (diar.map fun seg => (turnOutput asr total sr D O P seg).2).flatten

/-- `last_diar_end`: end of the last diarization turn, `0` when there are
no turns. -/
def lastDiarEnd (diar : List Segment) : ℚ :=
  (diar.getLast?).elim 0 fun s => s.«end»

/-- The warnings emitted while transcribing the tail-fallback chunks. -/
def tailWarns (asr : Asr) (total sr D O : ℕ) (lastEnd : ℚ) : List Warn :=
  let ts := (⌊lastEnd * sr⌋).toNat
  let L := total - ts
  ((chunkRanges L (D * sr) ((D - O) * sr) sr).map fun p =>
    (transcribe_chunk asr (ts + p.1) (ts + p.2) sr).warns).flatten

/-- `transcribe_with_diarization` (given the diarization collaborator's
turns): per-turn transcription, tail fallback when the tail gap exceeds
10 s, then the same-speaker merge.  Returns the full text, the merged
segments and the warnings. -/
def transcribe_with_diarization (asr : Asr) (diar : List Segment)
    (total sr D O : ℕ) (mergeGap : ℚ) (P : ℕ) : String × List Seg × List Warn :=
  let results := turnResults asr total sr D O P diar
  let tailGap : ℚ := (total : ℚ) / sr - lastDiarEnd diar
  let results2 := results ++
    (if tailGap > 10 then tailSegments asr total sr D O (lastDiarEnd diar) else [])
  let merged := mergeSegs mergeGap results2
  (joinParts (merged.map fun r => r.text), merged,
    turnWarns asr total sr D O P diar ++
      (if tailGap > 10 then tailWarns asr total sr D O (lastDiarEnd diar) else []))

/-- The progress values the model-loading heartbeat emits: starting from
`p = 0.05`, each tick does `p = min(p + 0.008, 0.13)` and reports it. -/
def hbList (k : ℕ) : List ℚ :=
  (List.range k).map fun (i : ℕ) => pyRound 3 (min (1 / 20 + (8 / 1000) * ((i : ℚ) + 1)) (13 / 100))

/-- The sequence of progress values `main` emits on the run where
diarization fails after the diarizing stage has begun and the run falls
back to the non-diarized pipeline: 0.01, 0.03, 0.05, the heartbeat ticks,
0.14 (model ready), 0.16 (diarizing), 0.15 (fallback restart), the
`transcribe_audio` progress with offset 0.15 and scale 0.78, 0.95 (saving)
and 1.0 (complete).  The heartbeat is sequentialised between model-load
start and completion. -/
def mainProgressFallback (asr : Asr) (total sr D O : ℕ) (hb : ℕ) : List ℚ :=
  [pyRound 3 (1 / 100), pyRound 3 (3 / 100), pyRound 3 (1 / 20)] ++ hbList hb ++
    [pyRound 3 (14 / 100), pyRound 3 (16 / 100), pyRound 3 (15 / 100)] ++
    (transcribe_audio asr total sr (15 / 100) (78 / 100) D O).2.2 ++
    [pyRound 3 (19 / 20), pyRound 3 1]

/-- `_format_ts_srt(seconds)` reduced to the four numbers it prints as
`HH:MM:SS,mmm`: `h = int(seconds // 3600)`, `m = int((seconds % 3600) // 60)`,
`s = int(seconds % 60)`, `ms = int(round((seconds - int(seconds)) * 1000))`
(for nonnegative input, Python `int` is the floor and `x % y = x - y*⌊x/y⌋`). -/
def format_ts_srt (q : ℚ) : ℤ × ℤ × ℤ × ℤ :=
  (⌊q / 3600⌋, ⌊(q - 3600 * ⌊q / 3600⌋) / 60⌋, ⌊q - 60 * ⌊q / 60⌋⌋,
    round ((q - ⌊q⌋) * 1000))

/-- Parsing an `HH:MM:SS,mmm` timestamp back into seconds. -/
def parse_ts_srt (p : ℤ × ℤ × ℤ × ℤ) : ℚ :=
  (p.1 : ℚ) * 3600 + (p.2.1 : ℚ) * 60 + (p.2.2.1 : ℚ) + (p.2.2.2 : ℚ) / 1000

/-! Helper lemmas -/

theorem abs_pyRound_sub (n : ℕ) (q : ℚ) : |pyRound n q - q| ≤ 1 / (2 * 10 ^ n) := by
  have hpow : (0 : ℚ) < 10 ^ n := by positivity
  have h : pyRound n q - q = (round (q * (10 ^ n : ℚ)) - q * (10 ^ n : ℚ)) / (10 ^ n : ℚ) := by
    field_simp [pyRound]
    ring
  rw [h, abs_div, abs_of_pos hpow, div_le_div_iff₀ hpow (by positivity)]
  have hr : |(round (q * (10 ^ n : ℚ)) : ℚ) - q * (10 ^ n : ℚ)| ≤ 1 / 2 := by
    rw [abs_sub_comm]; exact abs_sub_round _
  calc |(round (q * (10 ^ n : ℚ)) : ℚ) - q * (10 ^ n : ℚ)| * (2 * 10 ^ n)
      ≤ (1 / 2) * (2 * 10 ^ n) := by
        exact mul_le_mul_of_nonneg_right hr (by positivity)
    _ = 1 * 10 ^ n := by ring

theorem pyRound_mono (n : ℕ) {a b : ℚ} (h : a ≤ b) : pyRound n a ≤ pyRound n b := by
  have hpow : (0 : ℚ) < 10 ^ n := by positivity
  have : (round (a * (10 ^ n : ℚ)) : ℤ) ≤ round (b * (10 ^ n : ℚ)) := by
    rw [round_eq, round_eq]
    exact Int.floor_mono (by nlinarith)
  unfold pyRound
  have h2 : ((round (a * (10 ^ n : ℚ)) : ℤ) : ℚ) ≤ ((round (b * (10 ^ n : ℚ)) : ℤ) : ℚ) := by
    exact_mod_cast this
  gcongr

theorem pyRound2_lt {a b : ℚ} (h : a + 3 / 10 ≤ b) : pyRound 2 a < pyRound 2 b := by
  have ha := abs_pyRound_sub 2 a
  have hb := abs_pyRound_sub 2 b
  rw [abs_le] at ha hb
  norm_num at ha hb
  linarith

theorem chunkRangesAux_mem (total chunkS stepS sr : ℕ) :
    ∀ (fuel start : ℕ), ∀ p ∈ chunkRangesAux total chunkS stepS sr fuel start,
      start ≤ p.1 ∧ p.1 < total ∧ p.2 = min (p.1 + chunkS) total ∧
        3 * sr ≤ 10 * (p.2 - p.1) := by
  intro fuel
  induction fuel with
  | zero => intro start p hp; simp [chunkRangesAux] at hp
  | succ m ih =>
    intro start p hp
    unfold chunkRangesAux at hp
    by_cases hlt : start < total
    · rw [if_pos hlt] at hp
      by_cases hshort : 10 * (min (start + chunkS) total - start) < 3 * sr
      · simp only [if_pos hshort] at hp; exact absurd hp (List.not_mem_nil p)
      · simp only [if_neg hshort] at hp
        rcases List.mem_cons.mp hp with h | h
        · subst h
          exact ⟨le_refl _, hlt, rfl, by omega⟩
        · obtain ⟨h1, h2, h3, h4⟩ := ih (start + stepS) p h
          exact ⟨by omega, h2, h3, h4⟩
    · rw [if_neg hlt] at hp; exact absurd hp (List.not_mem_nil p)

theorem chunkRangesAux_pairwise (total chunkS stepS sr : ℕ) :
    ∀ (fuel start : ℕ),
      (chunkRangesAux total chunkS stepS sr fuel start).Pairwise
        (fun p q => p.1 + stepS ≤ q.1) := by
  intro fuel
  induction fuel with
  | zero => intro start; simp [chunkRangesAux]
  | succ m ih =>
    intro start
    unfold chunkRangesAux
    by_cases hlt : start < total
    · rw [if_pos hlt]
      by_cases hshort : 10 * (min (start + chunkS) total - start) < 3 * sr
      · simp [hshort]
      · simp only [if_neg hshort]
        refine List.Pairwise.cons ?_ (ih (start + stepS))
        intro q hq
        exact (chunkRangesAux_mem total chunkS stepS sr m (start + stepS) q hq).1
    · rw [if_neg hlt]; exact List.Pairwise.nil

theorem chunkRangesAux_eq_spec (total D O sr : ℕ) (hsr : 0 < sr) :
    ∀ (fuel start : ℕ),
      chunkRangesAux total (D * sr) ((D - O) * sr) sr fuel start =
        specRangesAux total D O sr fuel start := by
  intro fuel
  induction fuel with
  | zero => intro start; rfl
  | succ m ih =>
    intro start
    unfold chunkRangesAux specRangesAux
    by_cases hlt : start < total
    · rw [if_pos hlt, ih]
    · rw [if_neg hlt]
      have hcond : 10 * (min (start + D * sr) total - start) < 3 * sr := by
        have hmin : min (start + D * sr) total = total := by omega
        omega
      simp [hcond]

/-! Claims C1 and C2 -/

/-- C1: for a buffer longer than `D` seconds (with `0 ≤ O < D` and a positive
sample rate), `transcribe_audio` chunks it into exactly the spec's ranges
(`start_0 = 0`, `start_{i+1} = start_i + (D-O)*sr`,
`end_i = min(start_i + D*sr, total)`, stopping as soon as a range is shorter
than 0.3 s); for a buffer of at most `D` seconds it processes the single
range covering the whole buffer. -/
theorem C1_chunk_plan (total sr D O : ℕ) (hsr : 0 < sr) (_hOD : O < D) :
    (D * sr < total → audioChunkPlan total sr D O = specChunkRanges total D O sr) ∧
      (total ≤ D * sr → audioChunkPlan total sr D O = [(0, total)]) := by
  constructor
  · intro hlt
    unfold audioChunkPlan
    rw [if_neg (by omega)]
    unfold chunkRanges specChunkRanges
    exact chunkRangesAux_eq_spec total D O sr hsr (total + 1) 0
  · intro hle
    unfold audioChunkPlan
    rw [if_pos hle]

/-- Witness for C1 at `total = 720000`, `sr = 16000`, `D = 20`, `O = 4`. -/
theorem C1_chunk_plan_witness :
    0 < 16000 ∧ 4 < 20 ∧ 20 * 16000 < 720000 ∧
      audioChunkPlan 720000 16000 20 4 = specChunkRanges 720000 20 4 16000 := by
  refine ⟨by norm_num, by norm_num, by norm_num, ?_⟩
  exact (C1_chunk_plan 720000 16000 20 4 (by norm_num) (by norm_num)).1 (by norm_num)

/-- C2 counterexample: for a 45 s buffer at 16 kHz with `D = 20`, `O = 4`,
the produced ranges are NOT `[0,20), [16,36), [36,45)` (in samples,
`(0,320000), (256000,576000), (576000,720000)`): the third range starts at
sample `512000` (32 s), not `576000` (36 s). -/
theorem C2_example_counterexample :
    audioChunkPlan 720000 16000 20 4 ≠ [(0, 320000), (256000, 576000), (576000, 720000)] ∧
      audioChunkPlan 720000 16000 20 4 = [(0, 320000), (256000, 576000), (512000, 720000)] := by
  constructor
  · decide
  · decide

/-- C2 amended: for a 45 s buffer at 16 kHz with `D = 20`, `O = 4`, the
chunking yields the ranges `[0,20)`, `[16,36)`, `[32,45)` in seconds. -/
theorem C2_example_amended :
    audioChunkPlan 720000 16000 20 4 = [(0, 320000), (256000, 576000), (512000, 720000)] := by
  decide

/-! Claim C3 -/

/-- C3: in the merge step, an appended segment merges into the previous one
iff both carry the same speaker label, that label is nonempty and the gap
`start - previous.end` is below `merge_gap`; the merged segment keeps the
previous start and speaker, takes the later end, and space-concatenates the
texts.  In particular `(0,5,"A")`, `(5.2,9,"A")`, `(9,12,"B")` with
`merge_gap = 0.8` merge into `(0,9,"A")` and `(9,12,"B")`. -/
theorem C3_merge_rule :
    (∀ (g : ℚ) (rs : List Seg) (r prev : Seg),
        (mergeSegs g rs).getLast? = some prev →
        mergeSegs g (rs ++ [r]) =
          if prev.speaker = r.speaker ∧ r.speaker ≠ "" ∧ r.start - prev.«end» < g then
            (mergeSegs g rs).dropLast ++
              [⟨prev.start, r.«end», prev.speaker, prev.text ++ " " ++ r.text⟩]
          else mergeSegs g rs ++ [r]) ∧
      (∀ ta tb tc : String,
        mergeSegs (4 / 5) [⟨0, 5, "A", ta⟩, ⟨26 / 5, 9, "A", tb⟩, ⟨9, 12, "B", tc⟩] =
          [⟨0, 9, "A", ta ++ " " ++ tb⟩, ⟨9, 12, "B", tc⟩]) := by
  constructor
  · intro g rs r prev hprev
    unfold mergeSegs at hprev ⊢
    rw [List.foldl_append]
    set acc := rs.foldl (mergeStep g) [] with hacc
    rw [List.getLast?_reverse] at hprev
    match acc, hprev with
    | p :: rest, hprev =>
      have hp : p = prev := by
        simpa using hprev
      subst hp
      show (mergeStep g (p :: rest) r).reverse = _
      have hms : mergeStep g (p :: rest) r =
          if p.speaker = r.speaker ∧ r.speaker ≠ "" ∧ r.start - p.«end» < g then
            ⟨p.start, r.«end», p.speaker, p.text ++ " " ++ r.text⟩ :: rest
          else r :: p :: rest := rfl
      rw [hms]
      by_cases hcond : p.speaker = r.speaker ∧ r.speaker ≠ "" ∧ r.start - p.«end» < g
      · rw [if_pos hcond, if_pos hcond]
        simp [List.dropLast_concat]
      · rw [if_neg hcond, if_neg hcond]
        simp
  · intro ta tb tc
    have hA : (("A" : String) = "") = False := by decide
    have hAA : (("A" : String) = "A") = True := by decide
    have hAB : (("A" : String) = "B") = False := by decide
    simp only [mergeSegs, List.foldl, mergeStep]
    norm_num [hA, hAA, hAB]

/-- Witness for C3 at a concrete merging pair. -/
theorem C3_merge_rule_witness :
    mergeSegs 1 ([⟨0, 1, "A", "x"⟩] ++ [⟨3 / 2, 2, "A", "y"⟩]) = [⟨0, 2, "A", "x y"⟩] := by
  have h := C3_merge_rule.1 1 [⟨0, 1, "A", "x"⟩] ⟨3 / 2, 2, "A", "y"⟩ ⟨0, 1, "A", "x"⟩
    (by decide)
  rw [h, if_pos ⟨rfl, by decide, by norm_num⟩]
  rfl

/-! Claim C7 -/

/-- C7: `transcribe_chunk` returns empty text without invoking the ASR
collaborator when the slice is shorter than 0.1 s; otherwise it invokes the
collaborator exactly once, and when the collaborator raises it emits a
warning and returns empty text instead of propagating. -/
theorem C7_transcribe_chunk (asr : Asr) (a b sr : ℕ) :
    (10 * (b - a) < sr → transcribe_chunk asr a b sr = ⟨"", [], []⟩) ∧
      (sr ≤ 10 * (b - a) →
        (transcribe_chunk asr a b sr).calls = [(a, b)] ∧
          (asr a b = none →
            transcribe_chunk asr a b sr = ⟨"", [(a, b)], [.chunkFail]⟩) ∧
          (∀ t, asr a b = some t → (transcribe_chunk asr a b sr).text = pyStrip t)) := by
  constructor
  · intro h
    unfold transcribe_chunk
    rw [if_pos h]
  · intro h
    unfold transcribe_chunk
    rw [if_neg (by omega)]
    refine ⟨?_, ?_, ?_⟩
    · cases hc : asr a b <;> simp [hc]
    · intro hn; rw [hn]
    · intro t ht; rw [ht]

/-- Witness for C7: both branches at concrete inputs. -/
theorem C7_transcribe_chunk_witness :
    transcribe_chunk (fun _ _ => none) 0 100 16000 = ⟨"", [], []⟩ ∧
      transcribe_chunk (fun _ _ => none) 0 16000 16000 = ⟨"", [(0, 16000)], [.chunkFail]⟩ := by
  constructor
  · exact (C7_transcribe_chunk (fun _ _ => none) 0 100 16000).1 (by norm_num)
  · exact ((C7_transcribe_chunk (fun _ _ => none) 0 16000 16000).2 (by norm_num)).2.1 rfl

/-! Claim C6 -/

/-- C6: a diarization turn whose initial transcription is empty and whose
span duration is ≥ 0.5 s gets exactly one retry, on the span padded by
`pad` seconds on each side with the start clamped at 0 and the end clamped
at the buffer's sample count; a turn with nonempty initial text or span
duration < 0.5 s is never retried. -/
theorem C6_expansion_retry (asr : Asr) (total sr D O P : ℕ) (seg : Segment)
    (hsr : 0 < sr) (hin : (turnSpan sr seg).2 ≤ total) :
    ((turnInitial asr sr D O seg).text = "" → turnDuration sr seg ≥ 1 / 2 →
        (turnTranscribe asr total sr D O P seg).calls =
            (turnInitial asr sr D O seg).calls ++
              [((turnSpan sr seg).1 - P * sr, min total ((turnSpan sr seg).2 + P * sr))] ∧
          (((turnSpan sr seg).1 - P * sr : ℕ) : ℤ) =
            max 0 (((turnSpan sr seg).1 : ℤ) - (P * sr : ℕ)) ∧
          (turnTranscribe asr total sr D O P seg).text =
            (transcribe_chunk asr ((turnSpan sr seg).1 - P * sr)
              (min total ((turnSpan sr seg).2 + P * sr)) sr).text) ∧
      ((turnInitial asr sr D O seg).text ≠ "" ∨ turnDuration sr seg < 1 / 2 →
        turnTranscribe asr total sr D O P seg = turnInitial asr sr D O seg) := by
  have hdef : turnTranscribe asr total sr D O P seg =
      if (turnInitial asr sr D O seg).text = "" ∧ turnDuration sr seg ≥ 1 / 2 then
        ⟨(transcribe_chunk asr ((turnSpan sr seg).1 - P * sr)
            (min total ((turnSpan sr seg).2 + P * sr)) sr).text,
          (turnInitial asr sr D O seg).calls ++
            (transcribe_chunk asr ((turnSpan sr seg).1 - P * sr)
              (min total ((turnSpan sr seg).2 + P * sr)) sr).calls,
          (turnInitial asr sr D O seg).warns ++
            (transcribe_chunk asr ((turnSpan sr seg).1 - P * sr)
              (min total ((turnSpan sr seg).2 + P * sr)) sr).warns⟩
      else turnInitial asr sr D O seg := rfl
  set s := (turnSpan sr seg).1 with hs
  set e := (turnSpan sr seg).2 with he
  constructor
  · intro h1 h2
    have hlong : 2 * s + sr ≤ 2 * e := by
      have hq : (1 : ℚ) / 2 ≤ ((e : ℚ) - (s : ℚ)) / sr := h2
      rw [le_div_iff₀ (by positivity)] at hq
      have : (2 : ℚ) * s + sr ≤ 2 * e := by linarith
      exact_mod_cast this
    have hee : e ≤ min total (e + P * sr) := by omega
    have hchunk : (transcribe_chunk asr (s - P * sr) (min total (e + P * sr)) sr).calls =
        [(s - P * sr, min total (e + P * sr))] := by
      unfold transcribe_chunk
      rw [if_neg (by omega)]
      cases hc : asr (s - P * sr) (min total (e + P * sr)) <;> simp
    rw [hdef, if_pos ⟨h1, h2⟩]
    exact ⟨by rw [hchunk], by omega, rfl⟩
  · intro h
    rw [hdef, if_neg ?_]
    rcases h with h | h
    · exact fun hc => h hc.1
    · exact fun hc => absurd hc.2 (not_le.mpr h)

/-- Witness for C6 at a concrete empty one-second turn. -/
theorem C6_expansion_retry_witness :
    (turnTranscribe (fun _ _ => some "") 16000 16000 20 4 3 ⟨0, 1, "A"⟩).calls =
      [(0, 16000), (0, 16000)] := by
  have hspan : turnSpan 16000 ⟨0, 1, "A"⟩ = (0, 16000) := by
    norm_num [turnSpan]; omega
  have hinit : turnInitial (fun _ _ => some "") 16000 20 4 ⟨0, 1, "A"⟩ =
      ⟨"", [(0, 16000)], []⟩ := by
    norm_num [turnInitial, turnDuration, hspan, transcribe_chunk, pyStrip]
  have h := (C6_expansion_retry (fun _ _ => some "") 16000 16000 20 4 3 ⟨0, 1, "A"⟩
      (by norm_num) (by rw [hspan])).1 (by rw [hinit]) (by norm_num [turnDuration, hspan])
  rw [h.1, hinit, hspan]
  norm_num

/-! Claim C4 -/

/-- C4 (amended): for a diarization turn whose transcription is empty even
after the expansion retry, the pipeline emits a placeholder segment (the
turn's start and end rounded to two decimals, the turn's speaker, text
exactly `"[...]"`) plus a warning when the sample-span duration is ≥ 0.5 s,
and emits nothing when that duration is < 0.5 s. -/
theorem C4_empty_turn (asr : Asr) (total sr D O P : ℕ) (seg : Segment)
    (hempty : (turnTranscribe asr total sr D O P seg).text = "") :
    (turnDuration sr seg ≥ 1 / 2 →
        (turnOutput asr total sr D O P seg).1 =
            [⟨pyRound 2 seg.start, pyRound 2 seg.«end», seg.speaker_id, "[...]"⟩] ∧
          Warn.emptyTurn seg.speaker_id ∈ (turnOutput asr total sr D O P seg).2) ∧
      (turnDuration sr seg < 1 / 2 → (turnOutput asr total sr D O P seg).1 = []) := by
  have hdef : turnOutput asr total sr D O P seg =
      if (turnTranscribe asr total sr D O P seg).text ≠ "" then
        ([⟨pyRound 2 seg.start, pyRound 2 seg.«end», seg.speaker_id,
            (turnTranscribe asr total sr D O P seg).text⟩],
          (turnTranscribe asr total sr D O P seg).warns)
      else if turnDuration sr seg ≥ 1 / 2 then
        ([⟨pyRound 2 seg.start, pyRound 2 seg.«end», seg.speaker_id, "[...]"⟩],
          (turnTranscribe asr total sr D O P seg).warns ++ [.emptyTurn seg.speaker_id])
      else ([], (turnTranscribe asr total sr D O P seg).warns) := rfl
  constructor
  · intro hdur
    rw [hdef, if_neg (by simp [hempty]), if_pos hdur]
    exact ⟨rfl, by simp⟩
  · intro hdur
    rw [hdef, if_neg (by simp [hempty]), if_neg (not_le.mpr hdur)]

/-- C4 counterexample: a turn from `0.9999/16000` s to `0.5` s has true
duration `0.5 - 0.9999/16000 < 0.5`, yet (because the sample span
`[0, 8000)` has quantised duration exactly `0.5`) the code emits a
placeholder segment for it when transcription stays empty — the claim says
a turn shorter than 0.5 s produces no output segment at all. -/
theorem C4_empty_turn_counterexample :
    ((⟨9999 / 160000000, 1 / 2, "A"⟩ : Segment).«end» -
        (⟨9999 / 160000000, 1 / 2, "A"⟩ : Segment).start < 1 / 2) ∧
      (turnOutput (fun _ _ => some "") 16000 16000 20 4 3
          ⟨9999 / 160000000, 1 / 2, "A"⟩).1 ≠ [] := by
  constructor
  · show (1 : ℚ) / 2 - 9999 / 160000000 < 1 / 2
    norm_num
  · have hspan : turnSpan 16000 ⟨9999 / 160000000, 1 / 2, "A"⟩ = (0, 8000) := by
      norm_num [turnSpan]; omega
    have hdur : turnDuration 16000 ⟨9999 / 160000000, 1 / 2, "A"⟩ = 1 / 2 := by
      rw [turnDuration, hspan]
      norm_num
    have hinit : turnInitial (fun _ _ => some "") 16000 20 4
        ⟨9999 / 160000000, 1 / 2, "A"⟩ = ⟨"", [(0, 8000)], []⟩ := by
      rw [turnInitial, hspan, hdur]
      norm_num [transcribe_chunk, pyStrip]
    have htr : turnTranscribe (fun _ _ => some "") 16000 16000 20 4 3
        ⟨9999 / 160000000, 1 / 2, "A"⟩ = ⟨"", [(0, 8000), (0, 16000)], []⟩ := by
      rw [turnTranscribe, hspan, hdur, hinit]
      norm_num [transcribe_chunk, pyStrip]
    rw [turnOutput, htr, hdur]
    norm_num

/-- Witness for C4's amended theorem: a one-second silent turn yields the
placeholder segment. -/
theorem C4_empty_turn_witness :
    (turnOutput (fun _ _ => some "") 16000 16000 20 4 3 ⟨0, 1, "A"⟩).1 =
      [⟨0, 1, "A", "[...]"⟩] := by
  have hspan : turnSpan 16000 ⟨0, 1, "A"⟩ = (0, 16000) := by
    norm_num [turnSpan]; omega
  have hdur : turnDuration 16000 ⟨0, 1, "A"⟩ = 1 := by
    rw [turnDuration, hspan]
    norm_num
  have hinit : turnInitial (fun _ _ => some "") 16000 20 4 ⟨0, 1, "A"⟩ =
      ⟨"", [(0, 16000)], []⟩ := by
    rw [turnInitial, hspan, hdur]
    norm_num [transcribe_chunk, pyStrip]
  have hempty : (turnTranscribe (fun _ _ => some "") 16000 16000 20 4 3
      ⟨0, 1, "A"⟩).text = "" := by
    rw [turnTranscribe, hspan, hdur, hinit]
    norm_num [transcribe_chunk, pyStrip]
  have h := (C4_empty_turn (fun _ _ => some "") 16000 16000 20 4 3 ⟨0, 1, "A"⟩
      hempty).1 (by rw [hdur]; norm_num)
  rw [h.1]
  norm_num [pyRound, round_eq]

/-! Claim C5 -/

theorem mergeStep_speakerless (g : ℚ) (acc : List Seg) (r : Seg) (hr : r.speaker = "") :
    mergeStep g acc r = r :: acc := by
  cases acc with
  | nil => rfl
  | cons prev rest =>
    show (if _ then _ else _) = _
    rw [if_neg]
    intro hc
    exact hc.2.1 hr

theorem foldl_mergeStep_speakerless (g : ℚ) :
    ∀ (t acc : List Seg), (∀ x ∈ t, x.speaker = "") →
      t.foldl (mergeStep g) acc = t.reverse ++ acc := by
  intro t
  induction t with
  | nil => simp
  | cons x t' ih =>
    intro acc hx
    rw [List.foldl_cons, mergeStep_speakerless g acc x (hx x (by simp)),
      ih _ fun y hy => hx y (by simp [hy])]
    simp

theorem mergeSegs_append_speakerless (g : ℚ) (a t : List Seg)
    (ht : ∀ x ∈ t, x.speaker = "") :
    mergeSegs g (a ++ t) = mergeSegs g a ++ t := by
  unfold mergeSegs
  rw [List.foldl_append, foldl_mergeStep_speakerless g t _ ht]
  simp

theorem tailSegments_speaker (asr : Asr) (total sr D O : ℕ) (lastEnd : ℚ) :
    ∀ sg ∈ tailSegments asr total sr D O lastEnd, sg.speaker = "" := by
  intro sg hsg
  unfold tailSegments at hsg
  simp only [List.mem_filterMap] at hsg
  obtain ⟨p, _, hp⟩ := hsg
  split at hp
  · cases hp
    rfl
  · cases hp

/-- C5 (amended): when `tail_gap > 10` seconds, the merged result is exactly
the merged per-turn segments followed by the tail-fallback chunks, each of
which carries an empty speaker label (so when the ASR yields no text on the
tail, no segments are appended); when `tail_gap ≤ 10`, no tail segments are
added at all. -/
theorem C5_tail_fallback (asr : Asr) (diar : List Segment) (total sr D O : ℕ)
    (g : ℚ) (P : ℕ) :
    ((total : ℚ) / sr - lastDiarEnd diar ≤ 10 →
        (transcribe_with_diarization asr diar total sr D O g P).2.1 =
          mergeSegs g (turnResults asr total sr D O P diar)) ∧
      ((total : ℚ) / sr - lastDiarEnd diar > 10 →
        (transcribe_with_diarization asr diar total sr D O g P).2.1 =
            mergeSegs g (turnResults asr total sr D O P diar) ++
              tailSegments asr total sr D O (lastDiarEnd diar) ∧
          ∀ sg ∈ tailSegments asr total sr D O (lastDiarEnd diar), sg.speaker = "") := by
  have hdef : (transcribe_with_diarization asr diar total sr D O g P).2.1 =
      mergeSegs g (turnResults asr total sr D O P diar ++
        (if (total : ℚ) / sr - lastDiarEnd diar > 10 then
          tailSegments asr total sr D O (lastDiarEnd diar) else [])) := rfl
  constructor
  · intro h
    rw [hdef, if_neg (not_lt.mpr h), List.append_nil]
  · intro h
    refine ⟨?_, tailSegments_speaker asr total sr D O (lastDiarEnd diar)⟩
    rw [hdef, if_pos h,
      mergeSegs_append_speakerless g _ _ (tailSegments_speaker asr total sr D O _)]

/-- Witness for C5 at a 1-second buffer whose single turn covers it
(`tail_gap = 0 ≤ 10`). -/
theorem C5_tail_fallback_witness :
    (transcribe_with_diarization (fun _ _ => some "T") [⟨0, 1, "A"⟩]
        16000 16000 20 4 (4 / 5) 3).2.1 =
      mergeSegs (4 / 5) (turnResults (fun _ _ => some "T") 16000 16000 20 4 3
        [⟨0, 1, "A"⟩]) := by
  have hlast : lastDiarEnd [(⟨0, 1, "A"⟩ : Segment)] = 1 := rfl
  exact (C5_tail_fallback (fun _ _ => some "T") [⟨0, 1, "A"⟩] 16000 16000 20 4
    (4 / 5) 3).1 (by rw [hlast]; norm_num)

/-- C5 counterexample: a 20 s buffer whose only diarization turn ends at 1 s
(`tail_gap = 19 > 10`), with an ASR that recognizes nothing: the claim says
the result contains speaker-less segments covering the tail, but the result
contains no speaker-less segment at all (the tail chunks all produced empty
text and were discarded; only the turn's `"[...]"` placeholder remains). -/
theorem C5_tail_counterexample :
    ((320000 : ℚ) / 16000 - lastDiarEnd [⟨0, 1, "A"⟩] > 10) ∧
      ((transcribe_with_diarization (fun _ _ => some "") [⟨0, 1, "A"⟩]
          320000 16000 20 4 (4 / 5) 3).2.1).filter (fun sg => sg.speaker = "") = [] := by
  have hlast : lastDiarEnd [(⟨0, 1, "A"⟩ : Segment)] = 1 := rfl
  constructor
  · rw [hlast]; norm_num
  · have hspan : turnSpan 16000 ⟨0, 1, "A"⟩ = (0, 16000) := by
      norm_num [turnSpan]; omega
    have hdur : turnDuration 16000 ⟨0, 1, "A"⟩ = 1 := by
      rw [turnDuration, hspan]; norm_num
    have hinit : turnInitial (fun _ _ => some "") 16000 20 4 ⟨0, 1, "A"⟩ =
        ⟨"", [(0, 16000)], []⟩ := by
      rw [turnInitial, hspan, hdur]
      norm_num [transcribe_chunk, pyStrip]
    have htr : turnTranscribe (fun _ _ => some "") 320000 16000 20 4 3 ⟨0, 1, "A"⟩ =
        ⟨"", [(0, 16000), (0, 64000)], []⟩ := by
      rw [turnTranscribe, hspan, hdur, hinit]
      norm_num [transcribe_chunk, pyStrip]
    have hout : turnOutput (fun _ _ => some "") 320000 16000 20 4 3 ⟨0, 1, "A"⟩ =
        ([⟨0, 1, "A", "[...]"⟩], [.emptyTurn "A"]) := by
      rw [turnOutput, htr, hdur]
      norm_num [pyRound, round_eq]
    have hres : turnResults (fun _ _ => some "") 320000 16000 20 4 3 [⟨0, 1, "A"⟩] =
        [⟨0, 1, "A", "[...]"⟩] := by
      simp [turnResults, hout]
    have hcr : chunkRanges 304000 (20 * 16000) ((20 - 4) * 16000) 16000 =
        [(0, 304000), (256000, 304000)] := by decide
    have hts : ((⌊(1 : ℚ) * ((16000 : ℕ) : ℚ)⌋).toNat) = 16000 := by
      norm_num
      rfl
    have htailn : tailSegments (fun _ _ => some "") 320000 16000 20 4 1 = [] := by
      simp only [tailSegments, hts]
      norm_num [hcr, transcribe_chunk, pyStrip]
    have hdef : (transcribe_with_diarization (fun _ _ => some "") [⟨0, 1, "A"⟩]
        320000 16000 20 4 (4 / 5) 3).2.1 =
        mergeSegs (4 / 5) (turnResults (fun _ _ => some "") 320000 16000 20 4 3
            [⟨0, 1, "A"⟩] ++
          (if (320000 : ℚ) / 16000 - lastDiarEnd [⟨0, 1, "A"⟩] > 10 then
            tailSegments (fun _ _ => some "") 320000 16000 20 4
              (lastDiarEnd [⟨0, 1, "A"⟩]) else [])) := rfl
    rw [hdef, hlast, hres, if_pos (by norm_num), htailn, List.append_nil]
    simp [mergeSegs, mergeStep]

/-! Claim C10 -/

theorem transcribe_audio_small (asr : Asr) (total sr D O : ℕ) (po ps : ℚ)
    (h : total ≤ D * sr) :
    transcribe_audio asr total sr po ps D O =
      ((transcribe_chunk asr 0 total sr).text,
        (if (transcribe_chunk asr 0 total sr).text ≠ "" then
          [⟨0, (total : ℚ) / sr, "", (transcribe_chunk asr 0 total sr).text⟩] else []),
        [pyRound 3 (po + ps * (1 / 10)), pyRound 3 (po + ps)]) := by
  simp only [transcribe_audio]
  rw [if_pos h]

theorem transcribe_audio_large (asr : Asr) (total sr D O : ℕ) (po ps : ℚ)
    (h : ¬ total ≤ D * sr) :
    transcribe_audio asr total sr po ps D O =
      (joinParts ((((chunkRanges total (D * sr) ((D - O) * sr) sr).map fun p =>
            (p, transcribe_chunk asr p.1 p.2 sr)).map fun it => it.2.text).filter (· ≠ "")),
        ((chunkRanges total (D * sr) ((D - O) * sr) sr).map fun p =>
            (p, transcribe_chunk asr p.1 p.2 sr)).filterMap fun it =>
          if it.2.text ≠ "" then
            some ⟨pyRound 2 ((it.1.1 : ℚ) / sr), pyRound 2 ((it.1.2 : ℚ) / sr), "", it.2.text⟩
          else none,
        (List.range ((chunkRanges total (D * sr) ((D - O) * sr) sr).length)).map fun (i : ℕ) =>
          pyRound 3 (po + ps *
            (((i : ℚ) + 1) / ((chunkRanges total (D * sr) ((D - O) * sr) sr).length : ℚ)))) := by
  simp only [transcribe_audio]
  rw [if_neg h]

theorem pyRound2_div_lt (sr : ℕ) (hsr : 0 < sr) (a b : ℕ)
    (h : 10 * a + 3 * sr ≤ 10 * b) :
    pyRound 2 ((a : ℚ) / sr) < pyRound 2 ((b : ℚ) / sr) := by
  have hsr' : (0 : ℚ) < sr := by exact_mod_cast hsr
  apply pyRound2_lt
  have hq := (Nat.cast_le (α := ℚ)).mpr h
  push_cast at hq
  rw [div_add_div _ _ (ne_of_gt hsr') (by norm_num : (10 : ℚ) ≠ 0),
    div_le_div_iff₀ (by positivity) hsr']
  nlinarith

theorem segsMap_text_eq_filter (sr : ℕ) (l : List ((ℕ × ℕ) × ChunkResult)) :
    ((l.filterMap fun it =>
        if it.2.text ≠ "" then
          some (⟨pyRound 2 ((it.1.1 : ℚ) / sr), pyRound 2 ((it.1.2 : ℚ) / sr), "",
            it.2.text⟩ : Seg)
        else none).map fun s => s.text) =
      (l.map fun it => it.2.text).filter (· ≠ "") := by
  induction l with
  | nil => rfl
  | cons it l ih =>
    by_cases h : it.2.text = ""
    · rw [List.filterMap_cons_none (by simp [h]), List.map_cons,
        List.filter_cons_of_neg (by simp [h]), ih]
    · rw [List.filterMap_cons_some (by rw [if_pos h]), List.map_cons, List.map_cons,
        List.filter_cons_of_pos (by simp [h]), ih]

/-- C10: for every buffer and every ASR behaviour, `transcribe_audio`
returns only segments with nonempty text and `end > start`, ordered by
strictly increasing start, and its full text is the single-space join of
exactly the returned segments' texts. -/
theorem C10_audio_invariants (asr : Asr) (total sr D O : ℕ) (po ps : ℚ)
    (hsr : 0 < sr) (hOD : O < D) :
    (∀ s ∈ (transcribe_audio asr total sr po ps D O).2.1,
        s.text ≠ "" ∧ s.start < s.«end») ∧
      ((transcribe_audio asr total sr po ps D O).2.1).Pairwise
        (fun a b => a.start < b.start) ∧
      (transcribe_audio asr total sr po ps D O).1 =
        joinParts (((transcribe_audio asr total sr po ps D O).2.1).map fun s => s.text) := by
  by_cases htot : total ≤ D * sr
  · -- single-chunk branch
    rw [transcribe_audio_small asr total sr D O po ps htot]
    by_cases h : (transcribe_chunk asr 0 total sr).text ≠ ""
    · have hbig : ¬ (10 * (total - 0) < sr) := by
        intro hc
        have hz : transcribe_chunk asr 0 total sr = ⟨"", [], []⟩ := by
          unfold transcribe_chunk
          rw [if_pos hc]
        rw [hz] at h
        exact h rfl
      have htpos : 0 < total := by omega
      have hpos : (0 : ℚ) < (total : ℚ) / sr := by positivity
      refine ⟨?_, ?_, ?_⟩
      · intro s hs
        rw [if_pos h] at hs
        rcases List.mem_singleton.mp hs with rfl
        exact ⟨h, hpos⟩
      · rw [if_pos h]
        exact List.pairwise_singleton _ _
      · rw [if_pos h]
        rfl
    · refine ⟨?_, ?_, ?_⟩
      · intro s hs
        rw [if_neg h] at hs
        exact absurd hs (List.not_mem_nil s)
      · rw [if_neg h]
        exact List.Pairwise.nil
      · rw [if_neg h]
        simp only [ne_eq, not_not] at h
        rw [h]
        rfl
  · -- chunked branch
    rw [transcribe_audio_large asr total sr D O po ps htot]
    have hmem := chunkRangesAux_mem total (D * sr) ((D - O) * sr) sr (total + 1) 0
    have hpw := chunkRangesAux_pairwise total (D * sr) ((D - O) * sr) sr (total + 1) 0
    refine ⟨?_, ?_, ?_⟩
    · intro s hs
      simp only [List.mem_filterMap, List.mem_map] at hs
      obtain ⟨it, ⟨p, hp, rfl⟩, hsome⟩ := hs
      by_cases ht : (transcribe_chunk asr p.1 p.2 sr).text ≠ ""
      · rw [if_pos ht] at hsome
        rcases Option.some_inj.mp hsome with rfl
        obtain ⟨-, -, -, hlen⟩ := hmem p hp
        refine ⟨ht, pyRound2_div_lt sr hsr p.1 p.2 (by omega)⟩
      · rw [if_neg ht] at hsome
        cases hsome
    · apply List.Pairwise.filterMap
      · intro a a' hrel b hb b' hb'
        by_cases ha : a.2.text ≠ ""
        · by_cases ha' : a'.2.text ≠ ""
          · rw [if_pos ha] at hb
            rw [if_pos ha'] at hb'
            cases hb
            cases hb'
            have hstep : sr ≤ (D - O) * sr := by
              have h1 : 1 ≤ D - O := by omega
              calc sr = 1 * sr := (one_mul sr).symm
                _ ≤ (D - O) * sr := Nat.mul_le_mul_right sr h1
            have hgap : a.1.1 + sr ≤ a'.1.1 :=
              le_trans (Nat.add_le_add_left hstep _) hrel
            exact pyRound2_div_lt sr hsr a.1.1 a'.1.1 (by omega)
          · rw [if_neg ha'] at hb'
            cases hb'
        · rw [if_neg ha] at hb
          cases hb
      · exact List.pairwise_map.mpr hpw
    · rw [segsMap_text_eq_filter]

/-- Witness for C10 on a 45-second buffer with a constant-text ASR. -/
theorem C10_audio_invariants_witness :
    (∀ s ∈ (transcribe_audio (fun _ _ => some "t") 720000 16000 (15 / 100) (78 / 100)
          20 4).2.1, s.text ≠ "" ∧ s.start < s.«end») ∧
      ((transcribe_audio (fun _ _ => some "t") 720000 16000 (15 / 100) (78 / 100)
          20 4).2.1).Pairwise (fun a b => a.start < b.start) ∧
      (transcribe_audio (fun _ _ => some "t") 720000 16000 (15 / 100) (78 / 100) 20 4).1 =
        joinParts (((transcribe_audio (fun _ _ => some "t") 720000 16000 (15 / 100)
          (78 / 100) 20 4).2.1).map fun s => s.text) :=
  C10_audio_invariants (fun _ _ => some "t") 720000 16000 20 4 (15 / 100) (78 / 100)
    (by norm_num) (by norm_num)

/-! Claim C9 -/

theorem floor_div_of_bounds (q : ℚ) (d k r : ℕ)
    (hle : ((d * k + r : ℕ) : ℚ) ≤ q) (hlt : q < ((d * k + r : ℕ) : ℚ) + 1)
    (hr : r < d) :
    ⌊q / ((d : ℕ) : ℚ)⌋ = (k : ℤ) := by
  have hd' : (0 : ℚ) < ((d : ℕ) : ℚ) := by
    have : 0 < d := by omega
    exact_mod_cast this
  have hle' : ((d : ℕ) : ℚ) * (k : ℚ) + (r : ℚ) ≤ q := by
    have h0 : ((d * k + r : ℕ) : ℚ) = ((d : ℕ) : ℚ) * (k : ℚ) + (r : ℚ) := by push_cast; ring
    rw [h0] at hle
    exact hle
  have hlt' : q < ((d : ℕ) : ℚ) * (k : ℚ) + (r : ℚ) + 1 := by
    have h0 : ((d * k + r : ℕ) : ℚ) = ((d : ℕ) : ℚ) * (k : ℚ) + (r : ℚ) := by push_cast; ring
    rw [h0] at hlt
    exact hlt
  have hr' : (r : ℚ) + 1 ≤ ((d : ℕ) : ℚ) := by exact_mod_cast hr
  have hrpos : (0 : ℚ) ≤ (r : ℚ) := by positivity
  rw [Int.floor_eq_iff, Int.cast_natCast]
  constructor
  · rw [le_div_iff₀ hd']
    nlinarith
  · rw [div_lt_iff₀ hd']
    nlinarith

/-- C9: formatting a nonnegative timestamp with `_format_ts_srt` and parsing
the resulting `HH:MM:SS,mmm` fields back into seconds reproduces the value
to millisecond precision (within half a millisecond, the nearest-millisecond
rounding error). -/
theorem C9_srt_roundtrip (q : ℚ) (hq : 0 ≤ q) :
    |parse_ts_srt (format_ts_srt q) - q| ≤ 1 / 2000 := by
  obtain ⟨t, ht⟩ : ∃ t : ℕ, (⌊q⌋ : ℤ) = (t : ℤ) :=
    ⟨⌊q⌋.toNat, (Int.toNat_of_nonneg (Int.floor_nonneg.mpr hq)).symm⟩
  have htq : ((⌊q⌋ : ℤ) : ℚ) = (t : ℚ) := by rw [ht]; push_cast; ring
  have hle : (t : ℚ) ≤ q := by
    have h0 := Int.floor_le q
    rw [htq] at h0
    exact h0
  have hlt : q < (t : ℚ) + 1 := by
    have h0 := Int.lt_floor_add_one q
    rw [htq] at h0
    exact h0
  obtain ⟨k3, r3, ht3, hr3⟩ : ∃ k r, t = 3600 * k + r ∧ r < 3600 :=
    ⟨t / 3600, t % 3600, by omega, by omega⟩
  obtain ⟨m3, s3, hm3, hs3⟩ : ∃ m s, r3 = 60 * m + s ∧ s < 60 :=
    ⟨r3 / 60, r3 % 60, by omega, by omega⟩
  obtain ⟨k6, s6, ht6, hs6⟩ : ∃ k s, t = 60 * k + s ∧ s < 60 :=
    ⟨t / 60, t % 60, by omega, by omega⟩
  have hcast3600 : ((3600 : ℕ) : ℚ) = (3600 : ℚ) := by norm_num
  have hcast60 : ((60 : ℕ) : ℚ) = (60 : ℚ) := by norm_num
  -- hours field
  have hA : ⌊q / 3600⌋ = (k3 : ℤ) := by
    have h0 := floor_div_of_bounds q 3600 k3 r3
      (by rw [← ht3]; exact hle) (by rw [← ht3]; exact hlt) hr3
    rw [hcast3600] at h0
    exact h0
  have hAq : ((⌊q / 3600⌋ : ℤ) : ℚ) = (k3 : ℚ) := by rw [hA]; push_cast; ring
  -- minutes field
  have htQ3 : (t : ℚ) = 3600 * (k3 : ℚ) + (r3 : ℚ) := by exact_mod_cast ht3
  have hrQ3 : (r3 : ℚ) = 60 * (m3 : ℚ) + (s3 : ℚ) := by exact_mod_cast hm3
  have hB : ⌊(q - 3600 * ((⌊q / 3600⌋ : ℤ) : ℚ)) / 60⌋ = (m3 : ℤ) := by
    have h0 := floor_div_of_bounds (q - 3600 * ((⌊q / 3600⌋ : ℤ) : ℚ)) 60 m3 s3
      (by push_cast; rw [hAq]; linarith) (by push_cast; rw [hAq]; linarith) hs3
    rw [hcast60] at h0
    exact h0
  -- seconds field
  have htQ6 : (t : ℚ) = 60 * (k6 : ℚ) + (s6 : ℚ) := by exact_mod_cast ht6
  have hA6 : ⌊q / 60⌋ = (k6 : ℤ) := by
    have h0 := floor_div_of_bounds q 60 k6 s6
      (by rw [← ht6]; exact hle) (by rw [← ht6]; exact hlt) hs6
    rw [hcast60] at h0
    exact h0
  have hA6q : ((⌊q / 60⌋ : ℤ) : ℚ) = (k6 : ℚ) := by rw [hA6]; push_cast; ring
  have hC : ⌊q - 60 * ((⌊q / 60⌋ : ℤ) : ℚ)⌋ = (s6 : ℤ) := by
    rw [hA6q, Int.floor_eq_iff, Int.cast_natCast]
    constructor
    · linarith
    · linarith
  -- millisecond field
  have hMarg : (q - ((⌊q⌋ : ℤ) : ℚ)) * 1000 = (q - (t : ℚ)) * 1000 := by rw [htq]
  -- the three integer fields sum to the integer part
  have hs36 : s3 = s6 := by omega
  -- assemble
  have hparse : parse_ts_srt (format_ts_srt q) =
      (k3 : ℚ) * 3600 + (m3 : ℚ) * 60 + (s6 : ℚ) +
        ((round ((q - (t : ℚ)) * 1000) : ℤ) : ℚ) / 1000 := by
    show ((⌊q / 3600⌋ : ℤ) : ℚ) * 3600 +
        ((⌊(q - 3600 * ((⌊q / 3600⌋ : ℤ) : ℚ)) / 60⌋ : ℤ) : ℚ) * 60 +
        ((⌊q - 60 * ((⌊q / 60⌋ : ℤ) : ℚ)⌋ : ℤ) : ℚ) +
        ((round ((q - ((⌊q⌋ : ℤ) : ℚ)) * 1000) : ℤ) : ℚ) / 1000 = _
    rw [hB, hC, hA, hMarg]
    push_cast
    ring
  rw [hparse]
  have hround : |((round ((q - (t : ℚ)) * 1000) : ℤ) : ℚ) - (q - (t : ℚ)) * 1000| ≤ 1 / 2 := by
    rw [abs_sub_comm]
    exact abs_sub_round _
  have hsumQ : (k3 : ℚ) * 3600 + (m3 : ℚ) * 60 + (s6 : ℚ) = (t : ℚ) := by
    rw [← hs36]
    have h0 : k3 * 3600 + m3 * 60 + s3 = t := by omega
    exact_mod_cast h0
  have heq : (k3 : ℚ) * 3600 + (m3 : ℚ) * 60 + (s6 : ℚ) +
      ((round ((q - (t : ℚ)) * 1000) : ℤ) : ℚ) / 1000 - q =
      (((round ((q - (t : ℚ)) * 1000) : ℤ) : ℚ) - (q - (t : ℚ)) * 1000) / 1000 := by
    rw [hsumQ]
    ring
  rw [heq, abs_div, abs_of_pos (by norm_num : (0 : ℚ) < 1000)]
  linarith [hround]

/-- Witness for C9 at the timestamp `123.45` s. -/
theorem C9_srt_roundtrip_witness :
    |parse_ts_srt (format_ts_srt (12345 / 100)) - 12345 / 100| ≤ 1 / 2000 :=
  C9_srt_roundtrip (12345 / 100) (by norm_num)

/-! Claim C8 -/

/-- The progress events of the fallback run up to and including the 0.16
"diarizing" event. -/
def fallbackPre (hb : ℕ) : List ℚ :=
  [pyRound 3 (1 / 100), pyRound 3 (3 / 100), pyRound 3 (1 / 20)] ++ hbList hb ++
    [pyRound 3 (14 / 100), pyRound 3 (16 / 100)]

/-- The progress events of the fallback run from the 0.15 fallback-restart
event onward. -/
def fallbackRest (asr : Asr) (total sr D O : ℕ) : List ℚ :=
  pyRound 3 (15 / 100) ::
    ((transcribe_audio asr total sr (15 / 100) (78 / 100) D O).2.2 ++
      [pyRound 3 (19 / 20), pyRound 3 1])

theorem hbList_mem (hb : ℕ) : ∀ x ∈ hbList hb, 1 / 20 ≤ x ∧ x ≤ 13 / 100 := by
  intro x hx
  simp only [hbList, List.mem_map, List.mem_range] at hx
  obtain ⟨i, -, rfl⟩ := hx
  have e1 : pyRound 3 (1 / 20) = 1 / 20 := by norm_num [pyRound, round_eq]
  have e2 : pyRound 3 (13 / 100) = 13 / 100 := by norm_num [pyRound, round_eq]
  have hnn : (0 : ℚ) ≤ 8 / 1000 * ((i : ℚ) + 1) := by positivity
  constructor
  · have h := pyRound_mono 3 (le_min (by linarith : (1 : ℚ) / 20 ≤ 1 / 20 + 8 / 1000 * ((i : ℚ) + 1))
      (by norm_num : (1 : ℚ) / 20 ≤ 13 / 100))
    calc (1 : ℚ) / 20 = pyRound 3 (1 / 20) := e1.symm
      _ ≤ _ := h
  · have h := pyRound_mono 3
      (min_le_right (1 / 20 + 8 / 1000 * ((i : ℚ) + 1)) (13 / 100))
    exact le_trans h (le_of_eq e2)

theorem hbList_pairwise (hb : ℕ) : (hbList hb).Pairwise (· ≤ ·) := by
  unfold hbList
  rw [List.pairwise_map]
  refine (List.pairwise_lt_range hb).imp ?_
  intro i j hij
  apply pyRound_mono
  apply min_le_min _ le_rfl
  have h0 : (i : ℚ) ≤ (j : ℚ) := by exact_mod_cast le_of_lt hij
  linarith

theorem audioProg_mem (asr : Asr) (total sr D O : ℕ) :
    ∀ x ∈ (transcribe_audio asr total sr (15 / 100) (78 / 100) D O).2.2,
      3 / 20 ≤ x ∧ x ≤ 93 / 100 := by
  have e1 : pyRound 3 (3 / 20) = 3 / 20 := by norm_num [pyRound, round_eq]
  have e2 : pyRound 3 (93 / 100) = 93 / 100 := by norm_num [pyRound, round_eq]
  have key : ∀ y : ℚ, 3 / 20 ≤ y → y ≤ 93 / 100 →
      3 / 20 ≤ pyRound 3 y ∧ pyRound 3 y ≤ 93 / 100 := by
    intro y h1 h2
    constructor
    · calc (3 : ℚ) / 20 = pyRound 3 (3 / 20) := e1.symm
        _ ≤ pyRound 3 y := pyRound_mono 3 h1
    · calc pyRound 3 y ≤ pyRound 3 (93 / 100) := pyRound_mono 3 h2
        _ = 93 / 100 := e2
  intro x hx
  by_cases htot : total ≤ D * sr
  · rw [transcribe_audio_small asr total sr D O (15 / 100) (78 / 100) htot] at hx
    simp only [List.mem_cons, List.mem_singleton, List.not_mem_nil, or_false] at hx
    rcases hx with h | h
    · rw [h]
      exact key _ (by norm_num) (by norm_num)
    · rw [h]
      exact key _ (by norm_num) (by norm_num)
  · rw [transcribe_audio_large asr total sr D O (15 / 100) (78 / 100) htot] at hx
    simp only [List.mem_map, List.mem_range] at hx
    obtain ⟨i, hi, rfl⟩ := hx
    set n := (chunkRanges total (D * sr) ((D - O) * sr) sr).length with hn
    have hnpos : 0 < n := by omega
    have hnq : (0 : ℚ) < (n : ℚ) := by exact_mod_cast hnpos
    have hfrac1 : (0 : ℚ) ≤ ((i : ℚ) + 1) / (n : ℚ) := by positivity
    have hfrac2 : ((i : ℚ) + 1) / (n : ℚ) ≤ 1 := by
      rw [div_le_one hnq]
      have h1 : i + 1 ≤ n := hi
      exact_mod_cast h1
    exact key _ (by linarith) (by linarith)

theorem audioProg_pairwise (asr : Asr) (total sr D O : ℕ) :
    ((transcribe_audio asr total sr (15 / 100) (78 / 100) D O).2.2).Pairwise (· ≤ ·) := by
  by_cases htot : total ≤ D * sr
  · rw [transcribe_audio_small asr total sr D O (15 / 100) (78 / 100) htot]
    refine List.pairwise_cons.mpr ⟨?_, List.pairwise_singleton _ _⟩
    intro b hb
    rcases List.mem_singleton.mp hb with rfl
    apply pyRound_mono
    norm_num
  · rw [transcribe_audio_large asr total sr D O (15 / 100) (78 / 100) htot]
    rw [List.pairwise_map]
    refine (List.pairwise_lt_range _).imp ?_
    intro i j hij
    set n := (chunkRanges total (D * sr) ((D - O) * sr) sr).length with hn
    apply pyRound_mono
    rcases Nat.eq_zero_or_pos n with h0 | hpos
    · rw [h0]
      norm_num
    · have hnq : (0 : ℚ) < (n : ℚ) := by exact_mod_cast hpos
      have hij' : (i : ℚ) + 1 ≤ (j : ℚ) + 1 := by
        have h0 : (i : ℚ) ≤ (j : ℚ) := by exact_mod_cast le_of_lt hij
        linarith
      have hd : ((i : ℚ) + 1) / (n : ℚ) ≤ ((j : ℚ) + 1) / (n : ℚ) :=
        (div_le_div_iff_of_pos_right hnq).mpr hij'
      linarith

/-- C8 (amended): on the run where diarization fails after the diarizing
stage has begun, the emitted progress sequence is the events up to 0.16
(diarizing) followed by the events from 0.15 (fallback restart) on; each of
the two parts is monotonically non-decreasing and stays within [0, 1], but
the sequence decreases exactly once, from 0.16 to 0.15, at the fallback
boundary. -/
theorem C8_progress_fallback (asr : Asr) (total sr D O hb : ℕ) :
    mainProgressFallback asr total sr D O hb =
        fallbackPre hb ++ fallbackRest asr total sr D O ∧
      (fallbackPre hb).Pairwise (· ≤ ·) ∧
      (fallbackRest asr total sr D O).Pairwise (· ≤ ·) ∧
      (fallbackPre hb).getLast? = some (16 / 100) ∧
      (fallbackRest asr total sr D O).head? = some (15 / 100) ∧
      ∀ x ∈ mainProgressFallback asr total sr D O hb, 0 ≤ x ∧ x ≤ 1 := by
  have e001 : pyRound 3 (1 / 100) = 1 / 100 := by norm_num [pyRound, round_eq]
  have e003 : pyRound 3 (3 / 100) = 3 / 100 := by norm_num [pyRound, round_eq]
  have e005 : pyRound 3 (1 / 20) = 1 / 20 := by norm_num [pyRound, round_eq]
  have e014 : pyRound 3 (14 / 100) = 14 / 100 := by norm_num [pyRound, round_eq]
  have e016 : pyRound 3 (16 / 100) = 16 / 100 := by norm_num [pyRound, round_eq]
  have e015 : pyRound 3 (15 / 100) = 15 / 100 := by norm_num [pyRound, round_eq]
  have e095 : pyRound 3 (19 / 20) = 19 / 20 := by norm_num [pyRound, round_eq]
  have e100 : pyRound 3 1 = 1 := by norm_num [pyRound, round_eq]
  have hsplit : mainProgressFallback asr total sr D O hb =
      fallbackPre hb ++ fallbackRest asr total sr D O := by
    simp [mainProgressFallback, fallbackPre, fallbackRest]
  refine ⟨hsplit, ?_, ?_, ?_, ?_, ?_⟩
  · -- fallbackPre is non-decreasing
    unfold fallbackPre
    rw [e001, e003, e005, e014, e016]
    refine List.pairwise_append.mpr ⟨List.pairwise_append.mpr ⟨?_, hbList_pairwise hb, ?_⟩,
      ?_, ?_⟩
    · simp only [List.pairwise_cons, List.mem_cons, List.not_mem_nil, or_false]
      refine ⟨?_, ?_, ?_⟩
      · intro b hb'
        rcases hb' with rfl | rfl <;> norm_num
      · intro b hb'
        rcases hb' with rfl
        norm_num
      · exact ⟨fun a' h0 => absurd h0 not_false, List.Pairwise.nil⟩
    · intro x hx y hy
      have hx' : x ≤ 1 / 20 := by
        simp only [List.mem_cons, List.not_mem_nil, or_false] at hx
        rcases hx with rfl | rfl | rfl <;> norm_num
      linarith [(hbList_mem hb y hy).1]
    · simp only [List.pairwise_cons, List.mem_cons, List.not_mem_nil, or_false]
      refine ⟨?_, ?_, List.Pairwise.nil⟩
      · intro b hb'
        rcases hb' with rfl
        norm_num
      · intro b hb'
        exact absurd hb' not_false
    · intro x hx y hy
      have hx' : x ≤ 13 / 100 := by
        rcases List.mem_append.mp hx with h | h
        · simp only [List.mem_cons, List.not_mem_nil, or_false] at h
          rcases h with rfl | rfl | rfl <;> norm_num
        · linarith [(hbList_mem hb x h).2]
      simp only [List.mem_cons, List.not_mem_nil, or_false] at hy
      rcases hy with rfl | rfl <;> linarith
  · -- fallbackRest is non-decreasing
    unfold fallbackRest
    rw [e015, e095, e100]
    refine List.pairwise_cons.mpr ⟨?_, List.pairwise_append.mpr
      ⟨audioProg_pairwise asr total sr D O, ?_, ?_⟩⟩
    · intro y hy
      rcases List.mem_append.mp hy with h | h
      · linarith [(audioProg_mem asr total sr D O y h).1]
      · simp only [List.mem_cons, List.not_mem_nil, or_false] at h
        rcases h with rfl | rfl <;> norm_num
    · simp only [List.pairwise_cons, List.mem_singleton, List.not_mem_nil,
        List.Pairwise.nil]
      norm_num
    · intro x hx y hy
      have hx' := (audioProg_mem asr total sr D O x hx).2
      simp only [List.mem_cons, List.not_mem_nil, or_false] at hy
      rcases hy with rfl | rfl <;> linarith
  · -- fallbackPre ends at 0.16
    have h0 : fallbackPre hb =
        (([pyRound 3 (1 / 100), pyRound 3 (3 / 100), pyRound 3 (1 / 20)] ++ hbList hb) ++
          [pyRound 3 (14 / 100)]) ++ [pyRound 3 (16 / 100)] := by
      simp [fallbackPre]
    rw [h0, List.getLast?_concat, e016]
  · -- fallbackRest starts at 0.15
    show some (pyRound 3 (15 / 100)) = some (15 / 100)
    rw [e015]
  · -- all events within [0, 1]
    intro x hx
    rw [hsplit] at hx
    rcases List.mem_append.mp hx with h | h
    · unfold fallbackPre at h
      rcases List.mem_append.mp h with h1 | h1
      · rcases List.mem_append.mp h1 with h2 | h2
        · simp only [List.mem_cons, List.not_mem_nil, or_false] at h2
          rcases h2 with rfl | rfl | rfl
          · rw [e001]; norm_num
          · rw [e003]; norm_num
          · rw [e005]; norm_num
        · have hm := hbList_mem hb x h2
          constructor <;> linarith [hm.1, hm.2]
      · simp only [List.mem_cons, List.not_mem_nil, or_false] at h1
        rcases h1 with rfl | rfl
        · rw [e014]; norm_num
        · rw [e016]; norm_num
    · unfold fallbackRest at h
      simp only [List.mem_cons] at h
      rcases h with rfl | h1
      · rw [e015]; norm_num
      · rcases List.mem_append.mp h1 with h2 | h2
        · have := audioProg_mem asr total sr D O x h2
          constructor <;> linarith [this.1, this.2]
        · simp only [List.mem_cons, List.not_mem_nil, or_false] at h2
          rcases h2 with rfl | rfl
          · rw [e095]; norm_num
          · rw [e100]; norm_num

/-- C8 counterexample: on a concrete fallback run the emitted progress
values are 0.01, 0.03, 0.05, 0.14, 0.16, 0.15, 0.228, 0.93, 0.95, 1.0 —
the step from 0.16 (diarizing) to 0.15 (fallback restart) decreases, so the
sequence is not monotonically non-decreasing. -/
theorem C8_progress_counterexample :
    ¬ (mainProgressFallback (fun _ _ => some "hi") 16000 16000 20 4 0).Pairwise
      (· ≤ ·) := by
  have hprog : (transcribe_audio (fun _ _ => some "hi") 16000 16000 (15 / 100)
      (78 / 100) 20 4).2.2 =
      [pyRound 3 (15 / 100 + 78 / 100 * (1 / 10)), pyRound 3 (15 / 100 + 78 / 100)] := by
    rw [transcribe_audio_small (fun _ _ => some "hi") 16000 16000 20 4 (15 / 100)
      (78 / 100) (by norm_num)]
  have hL : mainProgressFallback (fun _ _ => some "hi") 16000 16000 20 4 0 =
      [1 / 100, 3 / 100, 1 / 20, 7 / 50, 4 / 25, 3 / 20, 57 / 250, 93 / 100,
        19 / 20, 1] := by
    rw [mainProgressFallback, hprog]
    norm_num [hbList, pyRound, round_eq]
  intro h
  rw [hL] at h
  simp only [List.pairwise_cons, List.mem_cons, List.mem_singleton,
    List.not_mem_nil, or_false, forall_eq_or_imp, forall_eq] at h
  have hbad : (4 : ℚ) / 25 ≤ 3 / 20 := h.2.2.2.2.1.1
  norm_num at hbad

/-- Witness for C8's amended theorem at a concrete fallback run. -/
theorem C8_progress_fallback_witness :
    mainProgressFallback (fun _ _ => some "x") 16000 16000 20 4 2 =
        fallbackPre 2 ++ fallbackRest (fun _ _ => some "x") 16000 16000 20 4 ∧
      (fallbackPre 2).Pairwise (· ≤ ·) ∧
      (fallbackRest (fun _ _ => some "x") 16000 16000 20 4).Pairwise (· ≤ ·) ∧
      (fallbackPre 2).getLast? = some (16 / 100) ∧
      (fallbackRest (fun _ _ => some "x") 16000 16000 20 4).head? = some (15 / 100) ∧
      ∀ x ∈ mainProgressFallback (fun _ _ => some "x") 16000 16000 20 4 2,
        0 ≤ x ∧ x ≤ 1 :=
  C8_progress_fallback (fun _ _ => some "x") 16000 16000 20 4 2

end Traart
